import Mathlib

/-!
Verification development for the amp-orchestrator scheduler core.

The definitions below are a shallow embedding of the Go sources:
  - `internal/ticket`  : the `Ticket` record and its validation,
  - `internal/queue`   : the ticket priority queue built on the Go
    `container/heap` (the `up` / `down` sift procedures are transcribed
    from the Go standard library, which `queue.go` calls),
  - `internal/ci`      : the CI status reader,
  - `internal/worker`  : the per-ticket worker pipeline,
  - `pkg/gitutils`     : `AddWorktree`,
  - `internal/ipc`     : the event-bus client `Close`,
  - `internal/watch`   : the enqueue logic of the backlog watcher.

Go machine integers are modelled as `Int` (only compared, never
overflowed), `time.Time` as a `Nat` count of nanoseconds since the epoch
(`Before` = `<`, the zero value = `0`), and fallible operations return
`Except` / `Option`.  Effects on the filesystem are modelled as explicit
state (lists of existing paths).
-/

/-- The `Ticket` struct of `internal/ticket/ticket.go`.  `Priority` is a Go
`int`; `CreatedAt` / `UpdatedAt` are `time.Time` values modelled as
nanoseconds since the epoch, with `0` playing the role of the Go zero time. -/
structure Ticket where
  id : String
  title : String
  description : String
  priority : Int
  locks : List String
  dependencies : List String
  estimateMin : Int
  tags : List String
  createdAt : Nat
  updatedAt : Nat
deriving DecidableEq

instance : Inhabited Ticket :=
  ⟨⟨"", "", "", 0, [], [], 0, [], 0, 0⟩⟩

/-- The ordering `ticketHeap.Less` from `internal/queue/heap.go`: priority 1 is highest;
ties are broken by `CreatedAt.Before`. -/
def ticketLess (a b : Ticket) : Bool :=
  if a.priority ≠ b.priority then decide (a.priority < b.priority)
  else decide (a.createdAt < b.createdAt)

/-- The non-strict companion of `ticketLess`: `heapLe a b` holds when the
heap may place `a` above `b` (`!h.Less(j, i)` in the Go sources). -/
def heapLe (a b : Ticket) : Prop := ticketLess b a = false

instance (a b : Ticket) : Decidable (heapLe a b) := by
  unfold heapLe; infer_instance

/-- Indexing into the heap slice; out-of-range reads return the zero
ticket (they never occur on the paths the algorithms take). -/
def getT (l : List Ticket) (i : Nat) : Ticket := l.getD i default

/-- The swap `ticketHeap.Swap` (a Go slice element swap).  Guarded so that
out-of-range indices leave the slice unchanged; the algorithms only ever
swap in-range indices. -/
def swapL (l : List Ticket) (i j : Nat) : List Ticket :=
  if i < l.length ∧ j < l.length then (l.set i (getT l j)).set j (getT l i) else l

/-- The procedure `down` from the Go `container/heap` package: sift the element at index `i` down
within the prefix of length `n`.  The choice of the smaller child is
inlined as a nested conditional. -/
def down (l : List Ticket) (i n : Nat) : List Ticket :=
  if h1 : 2 * i + 1 < n then
    if 2 * i + 2 < n ∧ ticketLess (getT l (2 * i + 2)) (getT l (2 * i + 1)) then
      if ticketLess (getT l (2 * i + 2)) (getT l i) then
        down (swapL l i (2 * i + 2)) (2 * i + 2) n
      else l
    else
      if ticketLess (getT l (2 * i + 1)) (getT l i) then
        down (swapL l i (2 * i + 1)) (2 * i + 1) n
      else l
  else l
termination_by n - i
decreasing_by
  all_goals omega

/-- The procedure `up` from the Go `container/heap` package: sift the element at index `j` up
towards the root.  In Go, `(0-1)/2 = 0`, matching `Nat` subtraction. -/
def up (l : List Ticket) (j : Nat) : List Ticket :=
  if (j - 1) / 2 = j ∨ ticketLess (getT l j) (getT l ((j - 1) / 2)) = false then l
  else up (swapL l ((j - 1) / 2) j) ((j - 1) / 2)
termination_by j
decreasing_by
  omega

/-- Go `heap.Push`: append the new element (`ticketHeap.Push`) and sift it up. -/
def heapPush (l : List Ticket) (t : Ticket) : List Ticket :=
  up (l ++ [t]) ((l ++ [t]).length - 1)

/-- Go `heap.Pop` composed with `ticketHeap.Pop`: swap the root with the last
element, sift the new root down within the shortened prefix, and split off
the last element (the popped ticket) from the remaining slice. -/
def heapPop (l : List Ticket) : Ticket × List Ticket :=
  let n := l.length - 1
  let l2 := down (swapL l 0 n) 0 n
  (getT l2 n, l2.take n)

/-- The method `Queue.Push` of `internal/queue/queue.go`: a `nil` ticket is a no-op,
otherwise `heap.Push`. -/
def queuePush (q : List Ticket) (t : Option Ticket) : List Ticket :=
  match t with
  | none => q
  | some t => heapPush q t

/-- The method `Queue.Pop`: `nil` on an empty queue, otherwise `heap.Pop`. -/
def queuePop (q : List Ticket) : Option (Ticket × List Ticket) :=
  if q.length = 0 then none else some (heapPop q)

/-- The method `Queue.Peek` via `ticketHeap.peek`: the root of the heap slice. -/
def queuePeek (q : List Ticket) : Option Ticket :=
  if q.length = 0 then none else some (getT q 0)

/-- The method `Queue.Len`. -/
def queueLen (q : List Ticket) : Nat := q.length

/-- The method `Queue.List`: a copy of the heap slice, in its internal layout. -/
def queueList (q : List Ticket) : List Ticket := q

/-- The binary-heap invariant maintained by `container/heap`: every
element of the prefix of length `n` is `heapLe`-above its parent. -/
def IsHeapN (l : List Ticket) (n : Nat) : Prop :=
  ∀ j, j < n → 0 < j → heapLe (getT l ((j - 1) / 2)) (getT l j)

/-- The heap invariant for the whole slice. -/
def IsHeap (l : List Ticket) : Prop := IsHeapN l l.length

instance (l : List Ticket) (n : Nat) : Decidable (IsHeapN l n) :=
  Nat.decidableBallLT n fun j _ => 0 < j → heapLe (getT l ((j - 1) / 2)) (getT l j)

instance (l : List Ticket) : Decidable (IsHeap l) := by
  unfold IsHeap; infer_instance

-- ## Basic facts about the ordering

theorem ticketLess_iff (a b : Ticket) :
    ticketLess a b = true ↔
      a.priority < b.priority ∨
        (a.priority = b.priority ∧ a.createdAt < b.createdAt) := by
  unfold ticketLess
  by_cases hp : a.priority = b.priority <;> simp [hp] <;> omega

theorem ticketLess_eq_false (a b : Ticket) :
    ticketLess a b = false ↔
      b.priority < a.priority ∨
        (a.priority = b.priority ∧ b.createdAt ≤ a.createdAt) := by
  have h := ticketLess_iff a b
  cases hb : ticketLess a b <;> simp [hb] at h ⊢ <;> omega

theorem heapLe_iff (a b : Ticket) :
    heapLe a b ↔
      a.priority < b.priority ∨
        (a.priority = b.priority ∧ a.createdAt ≤ b.createdAt) := by
  unfold heapLe
  rw [ticketLess_eq_false]
  omega

theorem heapLe_refl (a : Ticket) : heapLe a a := by
  rw [heapLe_iff]; omega

theorem heapLe_trans {a b c : Ticket} (h1 : heapLe a b) (h2 : heapLe b c) :
    heapLe a c := by
  rw [heapLe_iff] at *
  omega

theorem heapLe_of_less {a b : Ticket} (h : ticketLess a b = true) :
    heapLe a b := by
  rw [ticketLess_iff] at h
  rw [heapLe_iff]
  omega

theorem heapLe_of_not_less {a b : Ticket} (h : ticketLess a b = false) :
    heapLe b a := by
  rw [ticketLess_eq_false] at h
  rw [heapLe_iff]
  omega

-- ## Basic facts about `getT` and `swapL`

theorem getT_eq_getElem (l : List Ticket) (i : Nat) (h : i < l.length) :
    getT l i = l[i] := by
  simp [getT, List.getD_eq_getElem?_getD, List.getElem?_eq_getElem h]

theorem length_swapL (l : List Ticket) (i j : Nat) :
    (swapL l i j).length = l.length := by
  unfold swapL; split <;> simp

theorem getT_swapL_fst (l : List Ticket) {i j : Nat} (hi : i < l.length)
    (hj : j < l.length) : getT (swapL l i j) i = getT l j := by
  unfold swapL
  rw [if_pos ⟨hi, hj⟩]
  by_cases hij : i = j
  · subst hij
    rw [getT_eq_getElem _ _ (by simp [hi]), getT_eq_getElem _ _ hi]
    simp [List.getElem_set]
  · rw [getT_eq_getElem _ _ (by simp [hi]), getT_eq_getElem _ _ hj]
    simp [List.getElem_set, hij, Ne.symm hij, getT_eq_getElem _ _ hj]

theorem getT_swapL_snd (l : List Ticket) {i j : Nat} (hi : i < l.length)
    (hj : j < l.length) : getT (swapL l i j) j = getT l i := by
  unfold swapL
  rw [if_pos ⟨hi, hj⟩]
  rw [getT_eq_getElem _ _ (by simp [hj]), getT_eq_getElem _ _ hi]
  simp [List.getElem_set, getT_eq_getElem _ _ hi]

theorem getT_swapL_other (l : List Ticket) {i j k : Nat} (hki : k ≠ i)
    (hkj : k ≠ j) : getT (swapL l i j) k = getT l k := by
  unfold swapL
  split
  · by_cases hk : k < l.length
    · rw [getT_eq_getElem _ _ (by simp [hk]), getT_eq_getElem _ _ hk]
      simp [List.getElem_set, Ne.symm hki, Ne.symm hkj]
    · have h1 : l.length ≤ k := Nat.le_of_not_lt hk
      simp only [getT, List.getD_eq_getElem?_getD]
      rw [List.getElem?_eq_none (by simpa using h1),
        List.getElem?_eq_none (by omega)]
  · rfl

theorem count_swapL (l : List Ticket) (a : Ticket) {i j : Nat}
    (hi : i < l.length) (hj : j < l.length) :
    List.count a (swapL l i j) = List.count a l := by
  unfold swapL
  rw [if_pos ⟨hi, hj⟩]
  have hj2 : j < (l.set i (getT l j)).length := by rw [List.length_set]; exact hj
  rw [List.count_set _ _ _ _ hj2, List.count_set _ _ _ _ hi]
  have hmem : l[i] ∈ l := List.getElem_mem _
  have hcnt : l[i] = a → 1 ≤ List.count a l := by
    intro h
    subst h
    simpa [List.count_pos_iff] using hmem
  have hset : (l.set i (getT l j))[j] = if i = j then getT l j else l[j] := by
    simp [List.getElem_set]
  rw [hset, getT_eq_getElem _ _ hi, getT_eq_getElem _ _ hj]
  by_cases hij : i = j
  · subst hij
    by_cases h1 : l[i] = a
    · have hge := hcnt h1
      simp [h1]
      omega
    · simp [h1]
  · rw [if_neg hij]
    by_cases h1 : l[i] = a <;> by_cases h2 : l[j] = a
    · have hge := hcnt h1
      simp [h1, h2]
      omega
    · have hge := hcnt h1
      simp [h1, h2]
      omega
    · simp [h1, h2]
    · simp [h1, h2]

theorem swapL_perm (l : List Ticket) {i j : Nat} (hi : i < l.length)
    (hj : j < l.length) : (swapL l i j).Perm l := by
  rw [List.perm_iff_count]
  intro a
  exact count_swapL l a hi hj

-- ## Structural facts about `down`

theorem length_down (l : List Ticket) (i n : Nat) :
    (down l i n).length = l.length := by
  induction l, i, n using down.induct with
  | case1 l i n h1 h2 h3 IH =>
    rw [down, dif_pos h1, if_pos h2, if_pos h3, IH, length_swapL]
  | case2 l i n h1 h2 h3 =>
    rw [down, dif_pos h1, if_pos h2, if_neg h3]
  | case3 l i n h1 h2 h3 IH =>
    rw [down, dif_pos h1, if_neg h2, if_pos h3, IH, length_swapL]
  | case4 l i n h1 h2 h3 =>
    rw [down, dif_pos h1, if_neg h2, if_neg h3]
  | case5 l i n h1 =>
    rw [down, dif_neg h1]

theorem getT_down_of_ge (l : List Ticket) (i n : Nat) :
    ∀ k, n ≤ k → getT (down l i n) k = getT l k := by
  induction l, i, n using down.induct with
  | case1 l i n h1 h2 h3 IH =>
    intro k hk
    rw [down, dif_pos h1, if_pos h2, if_pos h3, IH k hk,
      getT_swapL_other l (by omega) (by omega)]
  | case2 l i n h1 h2 h3 =>
    intro k hk
    rw [down, dif_pos h1, if_pos h2, if_neg h3]
  | case3 l i n h1 h2 h3 IH =>
    intro k hk
    rw [down, dif_pos h1, if_neg h2, if_pos h3, IH k hk,
      getT_swapL_other l (by omega) (by omega)]
  | case4 l i n h1 h2 h3 =>
    intro k hk
    rw [down, dif_pos h1, if_neg h2, if_neg h3]
  | case5 l i n h1 =>
    intro k hk
    rw [down, dif_neg h1]

theorem down_perm (l : List Ticket) (i n : Nat) (hn : n ≤ l.length) :
    (down l i n).Perm l := by
  induction l, i, n using down.induct with
  | case1 l i n h1 h2 h3 IH =>
    rw [down, dif_pos h1, if_pos h2, if_pos h3]
    have hp := swapL_perm l (i := i) (j := 2 * i + 2) (by omega) (by omega)
    exact (IH (by rw [length_swapL]; exact hn)).trans hp
  | case2 l i n h1 h2 h3 =>
    rw [down, dif_pos h1, if_pos h2, if_neg h3]
  | case3 l i n h1 h2 h3 IH =>
    rw [down, dif_pos h1, if_neg h2, if_pos h3]
    have hp := swapL_perm l (i := i) (j := 2 * i + 1) (by omega) (by omega)
    exact (IH (by rw [length_swapL]; exact hn)).trans hp
  | case4 l i n h1 h2 h3 =>
    rw [down, dif_pos h1, if_neg h2, if_neg h3]
  | case5 l i n h1 =>
    rw [down, dif_neg h1]

-- ## Correctness of `down`

/-- Precondition under which `down l i n` restores the heap property: the
prefix of length `n` satisfies it everywhere except possibly between `i`
and its children, and (when `i` has a parent) the children of `i` are
already above the parent of `i`. -/
def DownInv (l : List Ticket) (n i : Nat) : Prop :=
  (∀ j, j < n → 0 < j → (j - 1) / 2 ≠ i → heapLe (getT l ((j - 1) / 2)) (getT l j)) ∧
  (0 < i → ∀ j, j < n → (j - 1) / 2 = i → heapLe (getT l ((i - 1) / 2)) (getT l j))

theorem downInv_swap (l : List Ticket) {n i j : Nat} (hn : n ≤ l.length)
    (hij : (j - 1) / 2 = i) (hji : i < j) (hjn : j < n)
    (hsib : ∀ s, s < n → 0 < s → (s - 1) / 2 = i → heapLe (getT l j) (getT l s))
    (hswap : ticketLess (getT l j) (getT l i) = true)
    (hinv : DownInv l n i) : DownInv (swapL l i j) n j := by
  obtain ⟨c1, c2⟩ := hinv
  have hi : i < l.length := by omega
  have hj : j < l.length := by omega
  have e1 : getT (swapL l i j) i = getT l j := getT_swapL_fst l hi hj
  have e2 : getT (swapL l i j) j = getT l i := getT_swapL_snd l hi hj
  have e3 : ∀ k, k ≠ i → k ≠ j → getT (swapL l i j) k = getT l k :=
    fun k ha hb => getT_swapL_other l ha hb
  constructor
  · intro k hk hk0 hkp
    by_cases hki : k = i
    · subst hki
      have hik : 0 < k := hk0
      have hpar_ne : (k - 1) / 2 ≠ k := by omega
      have hpar_nj : (k - 1) / 2 ≠ j := by omega
      rw [e3 ((k - 1) / 2) hpar_ne hpar_nj, e1]
      exact c2 hk0 j hjn hij
    · by_cases hkj : k = j
      · subst hkj
        rw [hij, e1, e2]
        exact heapLe_of_less hswap
      · by_cases hkpi : (k - 1) / 2 = i
        · rw [hkpi, e1, e3 k hki hkj]
          exact hsib k hk hk0 hkpi
        · have hpne : (k - 1) / 2 ≠ j := hkp
          have hpni : (k - 1) / 2 ≠ i := hkpi
          rw [e3 ((k - 1) / 2) hpni hpne, e3 k hki hkj]
          exact c1 k hk hk0 hkpi
  · intro hj0 k hk hkp
    have hkj : j < k := by omega
    have hki : k ≠ i := by omega
    have hknj : k ≠ j := by omega
    rw [hij, e1, e3 k hki hknj]
    have hc := c1 k hk (by omega) (by omega)
    rw [hkp] at hc
    exact hc

theorem downStop (l : List Ticket) {n i : Nat}
    (hch : ∀ s, s < n → 0 < s → (s - 1) / 2 = i → heapLe (getT l i) (getT l s))
    (hinv : DownInv l n i) : IsHeapN l n := by
  intro k hk hk0
  by_cases hkp : (k - 1) / 2 = i
  · rw [hkp]
    exact hch k hk hk0 hkp
  · exact hinv.1 k hk hk0 hkp

theorem down_correct (l : List Ticket) (i n : Nat) :
    n ≤ l.length → DownInv l n i → IsHeapN (down l i n) n := by
  induction l, i, n using down.induct with
  | case1 l i n h1 h2 h3 IH =>
    intro hn hinv
    rw [down, dif_pos h1, if_pos h2, if_pos h3]
    apply IH (by rw [length_swapL]; exact hn)
    apply downInv_swap l hn (by omega) (by omega) h2.1 _ h3 hinv
    intro s hs hs0 hsp
    have : s = 2 * i + 1 ∨ s = 2 * i + 2 := by omega
    rcases this with hs1 | hs2
    · subst hs1
      exact heapLe_of_less h2.2
    · subst hs2
      exact heapLe_refl _
  | case2 l i n h1 h2 h3 =>
    intro hn hinv
    rw [down, dif_pos h1, if_pos h2, if_neg h3]
    apply downStop l _ hinv
    intro s hs hs0 hsp
    have hle2 : heapLe (getT l i) (getT l (2 * i + 2)) := by
      have := Bool.of_not_eq_true h3
      exact heapLe_of_not_less this
    have : s = 2 * i + 1 ∨ s = 2 * i + 2 := by omega
    rcases this with hs1 | hs2
    · subst hs1
      exact heapLe_trans hle2 (heapLe_of_less h2.2)
    · subst hs2
      exact hle2
  | case3 l i n h1 h2 h3 IH =>
    intro hn hinv
    rw [down, dif_pos h1, if_neg h2, if_pos h3]
    apply IH (by rw [length_swapL]; exact hn)
    apply downInv_swap l hn (by omega) (by omega) (by omega) _ h3 hinv
    intro s hs hs0 hsp
    have : s = 2 * i + 1 ∨ s = 2 * i + 2 := by omega
    rcases this with hs1 | hs2
    · subst hs1
      exact heapLe_refl _
    · subst hs2
      have h2n : 2 * i + 2 < n := hs
      have : ticketLess (getT l (2 * i + 2)) (getT l (2 * i + 1)) = false := by
        by_contra hne
        exact h2 ⟨h2n, Bool.of_not_eq_false hne⟩
      exact heapLe_of_not_less this
  | case4 l i n h1 h2 h3 =>
    intro hn hinv
    rw [down, dif_pos h1, if_neg h2, if_neg h3]
    apply downStop l _ hinv
    intro s hs hs0 hsp
    have hle1 : heapLe (getT l i) (getT l (2 * i + 1)) := by
      have := Bool.of_not_eq_true h3
      exact heapLe_of_not_less this
    have : s = 2 * i + 1 ∨ s = 2 * i + 2 := by omega
    rcases this with hs1 | hs2
    · subst hs1
      exact hle1
    · subst hs2
      have h2n : 2 * i + 2 < n := hs
      have : ticketLess (getT l (2 * i + 2)) (getT l (2 * i + 1)) = false := by
        by_contra hne
        exact h2 ⟨h2n, Bool.of_not_eq_false hne⟩
      exact heapLe_trans hle1 (heapLe_of_not_less this)
  | case5 l i n h1 =>
    intro hn hinv
    rw [down, dif_neg h1]
    apply downStop l _ hinv
    intro s hs hs0 hsp
    omega

-- ## Structural facts about `up`

theorem length_up (l : List Ticket) (j : Nat) : (up l j).length = l.length := by
  induction l, j using up.induct with
  | case1 l j h =>
    rw [up, if_pos h]
  | case2 l j h IH =>
    rw [up, if_neg h, IH, length_swapL]

theorem up_perm (l : List Ticket) (j : Nat) (hj : j < l.length) :
    (up l j).Perm l := by
  induction l, j using up.induct with
  | case1 l j h =>
    rw [up, if_pos h]
  | case2 l j h IH =>
    rw [up, if_neg h]
    have hj1 : (j - 1) / 2 ≠ j := fun hh => h (Or.inl hh)
    have hi : (j - 1) / 2 < l.length := by omega
    have hp := swapL_perm l hi hj
    exact (IH (by rw [length_swapL]; omega)).trans hp

-- ## Correctness of `up`

/-- Precondition under which `up l j` restores the heap property: the
slice satisfies it everywhere except possibly between `j` and its parent,
and the children of `j` are already above the parent of `j`. -/
def UpInv (l : List Ticket) (j : Nat) : Prop :=
  (∀ k, k < l.length → 0 < k → k ≠ j → heapLe (getT l ((k - 1) / 2)) (getT l k)) ∧
  (∀ k, k < l.length → 0 < k → (k - 1) / 2 = j → heapLe (getT l ((j - 1) / 2)) (getT l k))

theorem up_correct (l : List Ticket) (j : Nat) :
    j < l.length → UpInv l j → IsHeap (up l j) := by
  induction l, j using up.induct with
  | case1 l j h =>
    intro hj hinv
    rw [up, if_pos h]
    intro k hk hk0
    by_cases hkj : k = j
    · subst hkj
      rcases h with h0 | hle
      · exact absurd h0 (by omega)
      · exact heapLe_of_not_less hle
    · exact hinv.1 k hk hk0 hkj
  | case2 l j h IH =>
    intro hj hinv
    rw [up, if_neg h]
    obtain ⟨c1, c2⟩ := hinv
    have hj1 : (j - 1) / 2 ≠ j := fun hh => h (Or.inl hh)
    have hless : ticketLess (getT l j) (getT l ((j - 1) / 2)) = true := by
      cases hb : ticketLess (getT l j) (getT l ((j - 1) / 2))
      · exact absurd (Or.inr hb) h
      · rfl
    have hi : (j - 1) / 2 < l.length := by omega
    have e1 : getT (swapL l ((j - 1) / 2) j) ((j - 1) / 2) = getT l j :=
      getT_swapL_fst l hi hj
    have e2 : getT (swapL l ((j - 1) / 2) j) j = getT l ((j - 1) / 2) :=
      getT_swapL_snd l hi hj
    have e3 : ∀ k, k ≠ (j - 1) / 2 → k ≠ j →
        getT (swapL l ((j - 1) / 2) j) k = getT l k :=
      fun k ha hb => getT_swapL_other l ha hb
    apply IH (by rw [length_swapL]; omega)
    constructor
    · intro k hk hk0 hki
      rw [length_swapL] at hk
      by_cases hkj : k = j
      · rw [hkj, e1, e2]
        exact heapLe_of_less hless
      · by_cases hkp : (k - 1) / 2 = (j - 1) / 2
        · rw [hkp, e1, e3 k hki hkj]
          have h1 : heapLe (getT l j) (getT l ((j - 1) / 2)) := heapLe_of_less hless
          have h2 : heapLe (getT l ((j - 1) / 2)) (getT l k) := by
            have hc := c1 k hk hk0 hkj
            rw [hkp] at hc
            exact hc
          exact heapLe_trans h1 h2
        · by_cases hkpj : (k - 1) / 2 = j
          · rw [hkpj, e2, e3 k hki hkj]
            exact c2 k hk hk0 hkpj
          · rw [e3 ((k - 1) / 2) hkp hkpj, e3 k hki hkj]
            exact c1 k hk hk0 hkj
    · intro k hk hk0 hkp
      rw [length_swapL] at hk
      have hik : k ≠ (j - 1) / 2 := by omega
      have hPle : heapLe (getT (swapL l ((j - 1) / 2) j) (((j - 1) / 2 - 1) / 2))
          (getT l ((j - 1) / 2)) := by
        by_cases hz : (j - 1) / 2 = 0
        · have hzz : ((j - 1) / 2 - 1) / 2 = (j - 1) / 2 := by omega
          rw [hzz, e1]
          exact heapLe_of_less hless
        · have hppne : ((j - 1) / 2 - 1) / 2 ≠ (j - 1) / 2 := by omega
          have hppnj : ((j - 1) / 2 - 1) / 2 ≠ j := by omega
          rw [e3 _ hppne hppnj]
          exact c1 ((j - 1) / 2) hi (by omega) hj1
      by_cases hkj : k = j
      · rw [hkj, e2]
        exact hPle
      · rw [e3 k hik hkj]
        have hc := c1 k hk hk0 hkj
        rw [hkp] at hc
        exact heapLe_trans hPle hc

-- ## The heap invariant through `heapPush` and `heapPop`

theorem getT_append_lt (l : List Ticket) (t : Ticket) {k : Nat}
    (hk : k < l.length) : getT (l ++ [t]) k = getT l k := by
  rw [getT_eq_getElem _ _ (by simp; omega), getT_eq_getElem _ _ hk]
  exact List.getElem_append_left hk

theorem getT_append_len (l : List Ticket) (t : Ticket) :
    getT (l ++ [t]) l.length = t := by
  rw [getT_eq_getElem _ _ (by simp)]
  exact List.getElem_concat_length l t _ rfl _

theorem getT_take (l : List Ticket) {n k : Nat} (hk : k < n) :
    getT (l.take n) k = getT l k := by
  simp [getT, List.getD_eq_getElem?_getD, List.getElem?_take, hk]

theorem length_heapPush (l : List Ticket) (t : Ticket) :
    (heapPush l t).length = l.length + 1 := by
  unfold heapPush
  rw [length_up]
  simp

theorem heapPush_perm (l : List Ticket) (t : Ticket) :
    (heapPush l t).Perm (l ++ [t]) := by
  unfold heapPush
  exact up_perm _ _ (by simp)

theorem heapPush_isHeap {l : List Ticket} (hl : IsHeap l) (t : Ticket) :
    IsHeap (heapPush l t) := by
  unfold heapPush
  have hj : (l ++ [t]).length - 1 = l.length := by simp
  rw [hj]
  apply up_correct _ _ (by simp)
  constructor
  · intro k hk hk0 hkj
    have hklen : k < l.length := by
      simp only [List.length_append, List.length_singleton] at hk
      omega
    rw [getT_append_lt l t hklen, getT_append_lt l t (by omega)]
    exact hl k hklen hk0
  · intro k hk hk0 hkp
    simp only [List.length_append, List.length_singleton] at hk
    omega

theorem heap_root_min {l : List Ticket} (hl : IsHeap l) :
    ∀ k, k < l.length → heapLe (getT l 0) (getT l k) := by
  intro k
  induction k using Nat.strong_induction_on with
  | _ k IH =>
    intro hk
    rcases Nat.eq_zero_or_pos k with h0 | hpos
    · subst h0
      exact heapLe_refl _
    · exact heapLe_trans (IH ((k - 1) / 2) (by omega) (by omega)) (hl k hk hpos)

theorem heapPop_fst (l : List Ticket) (hne : l.length ≠ 0) :
    (heapPop l).1 = getT l 0 := by
  show getT (down (swapL l 0 (l.length - 1)) 0 (l.length - 1)) (l.length - 1) = getT l 0
  rw [getT_down_of_ge (swapL l 0 (l.length - 1)) 0 (l.length - 1) (l.length - 1) le_rfl,
    getT_swapL_snd l (by omega) (by omega)]

theorem heapPop_decomp (l : List Ticket) (hne : l.length ≠ 0) :
    (heapPop l).2 ++ [(heapPop l).1] =
      down (swapL l 0 (l.length - 1)) 0 (l.length - 1) := by
  unfold heapPop
  have hlen : (down (swapL l 0 (l.length - 1)) 0 (l.length - 1)).length = l.length := by
    rw [length_down, length_swapL]
  have hlt : l.length - 1 < (down (swapL l 0 (l.length - 1)) 0 (l.length - 1)).length := by
    omega
  have hdrop := List.drop_eq_getElem_cons hlt
  have hdropnil :
      (down (swapL l 0 (l.length - 1)) 0 (l.length - 1)).drop (l.length - 1 + 1) = [] := by
    apply List.drop_eq_nil_of_le
    omega
  rw [hdropnil] at hdrop
  have := List.take_append_drop (l.length - 1)
    (down (swapL l 0 (l.length - 1)) 0 (l.length - 1))
  rw [hdrop] at this
  simpa [getT_eq_getElem _ _ hlt] using this

theorem heapPop_perm (l : List Ticket) (hne : l.length ≠ 0) :
    ((heapPop l).1 :: (heapPop l).2).Perm l := by
  have hd := heapPop_decomp l hne
  have hp1 : (down (swapL l 0 (l.length - 1)) 0 (l.length - 1)).Perm
      (swapL l 0 (l.length - 1)) := by
    apply down_perm
    rw [length_swapL]
    omega
  have hp2 : (swapL l 0 (l.length - 1)).Perm l :=
    swapL_perm l (by omega) (by omega)
  have h0 : ((heapPop l).1 :: (heapPop l).2).Perm ((heapPop l).2 ++ [(heapPop l).1]) :=
    (List.perm_append_singleton _ _).symm
  rw [hd] at h0
  exact (h0.trans hp1).trans hp2

theorem heapPop_isHeap {l : List Ticket} (hl : IsHeap l) (hne : l.length ≠ 0) :
    IsHeap (heapPop l).2 := by
  have hlen2 : (down (swapL l 0 (l.length - 1)) 0 (l.length - 1)).length = l.length := by
    rw [length_down, length_swapL]
  have hheap : IsHeapN (down (swapL l 0 (l.length - 1)) 0 (l.length - 1)) (l.length - 1) := by
    apply down_correct _ _ _ (by rw [length_swapL]; omega)
    constructor
    · intro k hk hk0 hkp
      rw [getT_swapL_other l (by omega) (by omega),
        getT_swapL_other l (by omega) (by omega)]
      exact hl k (by omega) hk0
    · intro h0
      exact absurd h0 (by omega)
  show IsHeap (heapPop l).2
  unfold heapPop IsHeap
  intro k hk hk0
  simp only [List.length_take, hlen2] at hk
  have hkn : k < l.length - 1 := by omega
  rw [getT_take _ hkn, getT_take _ (by omega)]
  exact hheap k hkn hk0

-- ## Queue-level corollaries

theorem isHeap_nil : IsHeap ([] : List Ticket) := by
  intro j hj hj0
  simp at hj

theorem isHeap_foldl_heapPush (ts : List Ticket) :
    ∀ acc : List Ticket, IsHeap acc → IsHeap (ts.foldl heapPush acc) := by
  induction ts with
  | nil =>
    intro acc hacc
    exact hacc
  | cons t ts IH =>
    intro acc hacc
    exact IH (heapPush acc t) (heapPush_isHeap hacc t)

theorem heap_min_of_mem {q : List Ticket} (hq : IsHeap q) {t : Ticket}
    (ht : t ∈ q) : heapLe (getT q 0) t := by
  obtain ⟨k, hk, rfl⟩ := List.mem_iff_getElem.mp ht
  rw [← getT_eq_getElem q k hk]
  exact heap_root_min hq k hk

/-- C1: two tickets returned by consecutive `Queue.Pop` calls are ordered
by `(priority, created_at)` with priority 1 first, because `Pop` always
removes and returns a minimal element of the heap under that ordering
(hypothesis: the queue slice satisfies the `container/heap` invariant,
which `heapPush_isHeap` / `heapPop_isHeap` show every reachable queue
state enjoys). -/
theorem claim_C1_pop_ordering (q : List Ticket) (hq : IsHeap q)
    (a b : Ticket) (q1 q2 : List Ticket)
    (h1 : queuePop q = some (a, q1)) (h2 : queuePop q1 = some (b, q2)) :
    (a.priority < b.priority ∨
      (a.priority = b.priority ∧ a.createdAt ≤ b.createdAt)) ∧
    (∀ t ∈ q, a.priority < t.priority ∨
      (a.priority = t.priority ∧ a.createdAt ≤ t.createdAt)) ∧
    (a :: q1).Perm q ∧ IsHeap q1 := by
  unfold queuePop at h1 h2
  by_cases hq0 : q.length = 0
  · rw [if_pos hq0] at h1
    exact absurd h1 (by simp)
  rw [if_neg hq0] at h1
  have ha : a = (heapPop q).1 := by
    have hin := Option.some.inj h1
    rw [hin]
  have hq1 : q1 = (heapPop q).2 := by
    have hin := Option.some.inj h1
    rw [hin]
  have hmin : ∀ t ∈ q, heapLe a t := by
    intro t ht
    rw [ha, heapPop_fst q hq0]
    exact heap_min_of_mem hq ht
  have hperm : (a :: q1).Perm q := by
    rw [ha, hq1]
    exact heapPop_perm q hq0
  have hheap1 : IsHeap q1 := by
    rw [hq1]
    exact heapPop_isHeap hq hq0
  by_cases hq10 : q1.length = 0
  · rw [if_pos hq10] at h2
    exact absurd h2 (by simp)
  rw [if_neg hq10] at h2
  have hb : b = (heapPop q1).1 := by
    have hin := Option.some.inj h2
    rw [hin]
  have hbq1 : b ∈ q1 := by
    rw [hb, heapPop_fst q1 hq10, getT_eq_getElem q1 0 (by omega)]
    exact List.getElem_mem _
  have hbq : b ∈ q := hperm.mem_iff.mp (List.mem_cons_of_mem a hbq1)
  refine ⟨?_, fun t ht => (heapLe_iff a t).mp (hmin t ht), hperm, hheap1⟩
  exact (heapLe_iff a b).mp (hmin b hbq)

-- Concrete tickets used to instantiate hypotheses of the claim theorems.

def tkA : Ticket := ⟨"tk-a", "A", "da", 1, [], [], 0, [], 10, 10⟩

def tkB : Ticket := ⟨"tk-b", "B", "db", 2, [], [], 0, [], 20, 20⟩

theorem claim_C1_pop_ordering_witness :
    (tkA.priority < tkB.priority ∨
      (tkA.priority = tkB.priority ∧ tkA.createdAt ≤ tkB.createdAt)) ∧
    (∀ t ∈ [tkA, tkB], tkA.priority < t.priority ∨
      (tkA.priority = t.priority ∧ tkA.createdAt ≤ t.createdAt)) ∧
    (tkA :: [tkB]).Perm [tkA, tkB] ∧ IsHeap [tkB] := by
  apply claim_C1_pop_ordering [tkA, tkB] (by decide) tkA tkB [tkB] []
  · simp [queuePop, heapPop, down, swapL, getT, tkA, tkB]
  · simp [queuePop, heapPop, down, swapL, getT, tkA, tkB]

/-- C9: `Queue.Peek` returns exactly the ticket that an immediately
following `Queue.Pop` returns, and both return `nil` precisely on the
empty queue.  (`Peek` itself is a read-only operation: it is a pure
function of the slice and returns no modified state.) -/
theorem claim_C9_peek_pop_agree (q : List Ticket) :
    (queuePop q).map Prod.fst = queuePeek q ∧
    (queuePop q = none ↔ q = []) ∧
    (queuePeek q = none ↔ q = []) := by
  unfold queuePop queuePeek
  by_cases hq0 : q.length = 0
  · rw [if_pos hq0, if_pos hq0]
    simp [List.length_eq_zero.mp hq0]
  · rw [if_neg hq0, if_neg hq0]
    have hne : q ≠ [] := by
      intro h
      exact hq0 (by simp [h])
    simp [heapPop_fst q hq0, hne]

-- Three tickets with identical (priority, created_at) keys, and three
-- tickets with distinct priorities pushed in the order 1, 3, 2.

def tkE1 : Ticket := ⟨"eq-1", "E1", "d1", 2, [], [], 0, [], 50, 50⟩

def tkE2 : Ticket := ⟨"eq-2", "E2", "d2", 2, [], [], 0, [], 50, 50⟩

def tkE3 : Ticket := ⟨"eq-3", "E3", "d3", 2, [], [], 0, [], 50, 50⟩

/-- C3 counterexample: pushing three tickets with identical priority and
`CreatedAt` in the order `tkE1, tkE2, tkE3` yields the heap slice
`[tkE1, tkE2, tkE3]`, but the second `Pop` returns `tkE3`, not the
second-pushed `tkE2`: `container/heap` is not stable, so insertion order
is not preserved for entries with fully equal keys. -/
theorem claim_C3_counterexample :
    queuePush (queuePush (queuePush [] (some tkE1)) (some tkE2)) (some tkE3) =
      [tkE1, tkE2, tkE3] ∧
    queuePop [tkE1, tkE2, tkE3] = some (tkE1, [tkE3, tkE2]) ∧
    queuePop [tkE3, tkE2] = some (tkE3, [tkE2]) ∧
    tkE3 ≠ tkE2 := by
  refine ⟨?_, ?_, ?_, by decide⟩
  · simp [queuePush, heapPush, up, ticketLess, swapL, getT, tkE1, tkE2, tkE3]
  · simp [queuePop, heapPop, down, ticketLess, swapL, getT, tkE1, tkE2, tkE3]
  · simp [queuePop, heapPop, down, ticketLess, swapL, getT, tkE1, tkE2, tkE3]

/-- C3 amended: within a single priority class the queue is FIFO by
`CreatedAt`, but insertion order is only guaranteed for equal-key tickets
when at most two of them are involved: two tickets with equal priority and
equal `CreatedAt` pushed onto the empty queue pop in insertion order,
while with three such tickets the second and third pop out of order
(see the counterexample). -/
theorem claim_C3_amended_two_stable (t u : Ticket)
    (hp : t.priority = u.priority) (hc : t.createdAt = u.createdAt) :
    queuePush (queuePush [] (some t)) (some u) = [t, u] ∧
    queuePop [t, u] = some (t, [u]) ∧
    queuePop [u] = some (u, []) := by
  have hlt : ticketLess u t = false := by
    rw [ticketLess_eq_false]
    omega
  refine ⟨?_, ?_, ?_⟩
  · simp [queuePush, heapPush, up, swapL, getT, hlt]
  · simp [queuePop, heapPop, down, swapL, getT]
  · simp [queuePop, heapPop, down, swapL, getT]

theorem claim_C3_amended_two_stable_witness :
    queuePush (queuePush [] (some tkE1)) (some tkE2) = [tkE1, tkE2] ∧
    queuePop [tkE1, tkE2] = some (tkE1, [tkE2]) ∧
    queuePop [tkE2] = some (tkE2, []) :=
  claim_C3_amended_two_stable tkE1 tkE2 (by decide) (by decide)

-- ## The watcher enqueue logic (`internal/watch/watcher.go`)

/-- The helper `Watcher.isTicketInQueue`: scan the snapshot returned by
`queue.List()` for the ticket id. -/
def isTicketInQueue (q : List Ticket) (ticketID : String) : Bool :=
  (queueList q).any fun t => t.id == ticketID

/-- The queue interaction of `Watcher.processTicketFile` once a ticket has
been loaded successfully: skip the enqueue when a ticket with the same id
is already in the queue, otherwise `queue.Push`.  (Archiving the source
file touches only the filesystem, not the queue.) -/
def processTicketFile (q : List Ticket) (t : Ticket) : List Ticket :=
  if isTicketInQueue q t.id then q else queuePush q (some t)

/-- Number of queue entries carrying a given ticket id. -/
def countId (q : List Ticket) (ticketID : String) : Nat :=
  (queueList q).countP fun t => t.id == ticketID

theorem countId_heapPush (q : List Ticket) (t : Ticket) (ticketID : String) :
    countId (heapPush q t) ticketID =
      countId q ticketID + (if t.id == ticketID then 1 else 0) := by
  unfold countId queueList
  rw [(heapPush_perm q t).countP_eq]
  rw [List.countP_append]
  simp [List.countP_cons]

theorem isTicketInQueue_eq_false_iff (q : List Ticket) (ticketID : String) :
    isTicketInQueue q ticketID = false ↔ countId q ticketID = 0 := by
  unfold isTicketInQueue countId queueList
  rw [List.countP_eq_zero]
  simp

/-- C4: when the watcher processes a ticket whose id is already present in
the queue it does not push it, so processing the same id twice while the
first copy is enqueued leaves exactly one entry with that id. -/
theorem claim_C4_watcher_idempotent (q : List Ticket) (t1 t2 : Ticket)
    (hid : t2.id = t1.id) (h0 : countId q t1.id = 0) :
    countId (processTicketFile q t1) t1.id = 1 ∧
    processTicketFile (processTicketFile q t1) t2 = processTicketFile q t1 := by
  have hnot : isTicketInQueue q t1.id = false :=
    (isTicketInQueue_eq_false_iff q t1.id).mpr h0
  have hstep : processTicketFile q t1 = heapPush q t1 := by
    unfold processTicketFile
    rw [hnot]
    simp [queuePush]
  have hcount : countId (processTicketFile q t1) t1.id = 1 := by
    rw [hstep, countId_heapPush, h0]
    simp
  refine ⟨hcount, ?_⟩
  have hin : isTicketInQueue (processTicketFile q t1) t2.id = true := by
    unfold isTicketInQueue queueList
    rw [List.any_eq_true]
    have : countId (processTicketFile q t1) t2.id = 1 := by
      rw [hid]
      exact hcount
    by_contra hnone
    push_neg at hnone
    have : countId (processTicketFile q t1) t2.id = 0 := by
      unfold countId queueList
      rw [List.countP_eq_zero]
      intro a ha
      simpa using hnone a ha
    omega
  have houter : processTicketFile (processTicketFile q t1) t2 =
      if isTicketInQueue (processTicketFile q t1) t2.id then processTicketFile q t1
      else queuePush (processTicketFile q t1) (some t2) := rfl
  rw [houter, hin]
  simp

theorem claim_C4_watcher_idempotent_witness :
    countId (processTicketFile [] tkA) tkA.id = 1 ∧
    processTicketFile (processTicketFile [] tkA) tkA = processTicketFile [] tkA :=
  claim_C4_watcher_idempotent [] tkA tkA rfl (by decide)

-- ## `Queue.List` returns the heap slice layout (C8)

def tkP1 : Ticket := ⟨"pr-1", "P1", "d1", 1, [], [], 0, [], 10, 10⟩

def tkP3 : Ticket := ⟨"pr-3", "P3", "d3", 3, [], [], 0, [], 11, 11⟩

def tkP2 : Ticket := ⟨"pr-2", "P2", "d2", 2, [], [], 0, [], 12, 12⟩

/-- C8: pushing tickets with priorities 1, 3, 2 (in that push order)
leaves the heap slice `[tkP1, tkP3, tkP2]`, and `Queue.List` returns that
slice as-is — which is *not* sorted by the queue ordering (priority 3
precedes priority 2), contradicting both the specification and the
doc comment of the function itself ("ordered by priority").  The snapshot itself
is a copy and pops are unaffected. -/
theorem claim_C8_list_not_sorted :
    queuePush (queuePush (queuePush [] (some tkP1)) (some tkP3)) (some tkP2) =
      [tkP1, tkP3, tkP2] ∧
    queueList [tkP1, tkP3, tkP2] = [tkP1, tkP3, tkP2] ∧
    ¬ List.Pairwise heapLe (queueList [tkP1, tkP3, tkP2]) := by
  refine ⟨?_, rfl, by decide⟩
  simp [queuePush, heapPush, up, ticketLess, swapL, getT, tkP1, tkP2, tkP3]

-- ## Ticket loading and validation (`internal/ticket/ticket.go`)

/-- The validator `Ticket.Validate`: the checks run in source order (id, title,
description, priority) and return the message of the first failing field. -/
def validateTicket (t : Ticket) : Except String Unit :=
  if t.id = "" then .error ("ticket ID is required")
  else if t.title = "" then .error ("ticket title is required")
  else if t.description = "" then .error ("ticket description is required")
  else if t.priority < 1 ∨ 5 < t.priority then
    .error ("ticket priority must be between 1 and 5")
  else .ok ()

/-- Timestamp filling performed by `Load` / `LoadFromBytes`: a zero
`created_at` is replaced by the current time. -/
def fillCreated (t : Ticket) (now : Nat) : Ticket :=
  if t.createdAt = 0 then { t with createdAt := now } else t

/-- Likewise for `updated_at`. -/
def fillUpdated (t : Ticket) (now : Nat) : Ticket :=
  if t.updatedAt = 0 then { t with updatedAt := now } else t

/-- Both timestamp fills, in source order. -/
def fillTimes (t : Ticket) (now : Nat) : Ticket :=
  fillUpdated (fillCreated t now) now

/-- The loader `LoadFromBytes`: the YAML decoding itself is external, so its outcome
is the `parsed` argument (`none` models a `yaml.Unmarshal` error).  On a
successful parse the zero timestamps are filled and the ticket is
validated; `Load` differs only in reading the bytes from a file first. -/
def loadFromBytes (parsed : Option Ticket) (now : Nat) : Except String Ticket :=
  match parsed with
  | none => .error ("failed to parse YAML")
  | some t0 =>
    match validateTicket (fillTimes t0 now) with
    | .error e => .error ("validation failed: " ++ e)
    | .ok _ => .ok (fillTimes t0 now)

theorem fillTimes_id (t : Ticket) (now : Nat) : (fillTimes t now).id = t.id := by
  unfold fillTimes fillUpdated fillCreated
  split <;> split <;> rfl

theorem fillTimes_title (t : Ticket) (now : Nat) :
    (fillTimes t now).title = t.title := by
  unfold fillTimes fillUpdated fillCreated
  split <;> split <;> rfl

theorem fillTimes_description (t : Ticket) (now : Nat) :
    (fillTimes t now).description = t.description := by
  unfold fillTimes fillUpdated fillCreated
  split <;> split <;> rfl

theorem fillTimes_priority (t : Ticket) (now : Nat) :
    (fillTimes t now).priority = t.priority := by
  unfold fillTimes fillUpdated fillCreated
  split <;> split <;> rfl

theorem validateTicket_fillTimes (t : Ticket) (now : Nat) :
    validateTicket (fillTimes t now) = validateTicket t := by
  unfold validateTicket
  rw [fillTimes_id, fillTimes_title, fillTimes_description, fillTimes_priority]

/-- C5: loading succeeds exactly when (given YAML that parses) id, title
and description are non-empty and `1 ≤ priority ≤ 5`; on violation the
error names the first failing field, checked in the order id, title,
description, priority. -/
theorem claim_C5_load_validation (t : Ticket) (now : Nat) :
    ((∃ u, loadFromBytes (some t) now = .ok u) ↔
      (t.id ≠ "" ∧ t.title ≠ "" ∧ t.description ≠ "" ∧
        1 ≤ t.priority ∧ t.priority ≤ 5)) ∧
    (loadFromBytes none now = .error ("failed to parse YAML")) ∧
    (t.id = "" →
      loadFromBytes (some t) now =
        .error ("validation failed: ticket ID is required")) ∧
    (t.id ≠ "" → t.title = "" →
      loadFromBytes (some t) now =
        .error ("validation failed: ticket title is required")) ∧
    (t.id ≠ "" → t.title ≠ "" → t.description = "" →
      loadFromBytes (some t) now =
        .error ("validation failed: ticket description is required")) ∧
    (t.id ≠ "" → t.title ≠ "" → t.description ≠ "" →
      (t.priority < 1 ∨ 5 < t.priority) →
      loadFromBytes (some t) now =
        .error ("validation failed: ticket priority must be between 1 and 5")) := by
  have hload : loadFromBytes (some t) now =
      match validateTicket t with
      | .error e => .error ("validation failed: " ++ e)
      | .ok _ => .ok (fillTimes t now) := by
    show (match validateTicket (fillTimes t now) with
      | Except.error e => Except.error ("validation failed: " ++ e)
      | Except.ok _ => Except.ok (fillTimes t now)) =
      match validateTicket t with
      | Except.error e => Except.error ("validation failed: " ++ e)
      | Except.ok _ => Except.ok (fillTimes t now)
    rw [validateTicket_fillTimes]
  refine ⟨?_, rfl, ?_, ?_, ?_, ?_⟩
  · rw [hload]
    unfold validateTicket
    by_cases h1 : t.id = "" <;> by_cases h2 : t.title = "" <;>
      by_cases h3 : t.description = "" <;>
        by_cases h4 : t.priority < 1 ∨ 5 < t.priority <;>
          simp [h1, h2, h3, h4] <;> omega
  · intro h1
    rw [hload]
    unfold validateTicket
    simp [h1]
  · intro h1 h2
    rw [hload]
    unfold validateTicket
    simp [h1, h2]
  · intro h1 h2 h3
    rw [hload]
    unfold validateTicket
    simp [h1, h2, h3]
  · intro h1 h2 h3 h4
    rw [hload]
    unfold validateTicket
    simp [h1, h2, h3, h4]

theorem claim_C5_load_validation_witness :
    loadFromBytes (some ⟨"", "T", "D", 3, [], [], 0, [], 1, 1⟩) 99 =
      .error ("validation failed: ticket ID is required") :=
  (claim_C5_load_validation ⟨"", "T", "D", 3, [], [], 0, [], 1, 1⟩ 99).2.2.1 rfl

-- ## CI status reader (`internal/ci/status.go`)

/-- The `Status` record of the CI verdict JSON. -/
structure CIStatus where
  ref : String
  commit : String
  status : String
  timestamp : Nat
  output : String
deriving DecidableEq

/-- Outcome of reading and JSON-decoding `<dir>/<hash>.json`, modelling
`os.ReadFile` (missing / other failure) composed with `json.Unmarshal`
(malformed) in `StatusReader.GetStatus`. -/
inductive VerdictFile where
  | missing : VerdictFile
  | readFailure : VerdictFile
  | malformed : VerdictFile
  | valid : CIStatus → VerdictFile
deriving DecidableEq

/-- The verdict directory keyed by commit hash. -/
def StatusDir := String → VerdictFile

/-- The reader `StatusReader.GetStatus`: a missing file is the distinct not-found
error, other read failures and JSON decode failures surface as their own
errors, a decodable file yields the record. -/
def getStatus (dir : StatusDir) (commitHash : String) : Except String CIStatus :=
  match dir commitHash with
  | .missing => .error ("CI status not found for commit " ++ commitHash)
  | .readFailure => .error ("failed to read CI status file")
  | .malformed => .error ("failed to parse CI status JSON")
  | .valid s => .ok s

/-- The reader `StatusReader.IsPassing`: errors from `GetStatus` are returned as
errors (the accompanying Go `false` is the zero value, inspected only
when `err == nil`); otherwise the verdict is `status == "PASS"`. -/
def isPassing (dir : StatusDir) (commitHash : String) : Except String Bool :=
  match getStatus dir commitHash with
  | .error e => .error e
  | .ok s => .ok (s.status == "PASS")

/-- C7: `GetStatus` distinguishes a missing verdict file from a parse
failure; `IsPassing` is `true` iff the file exists, decodes, and its
status field is `"PASS"`, and it propagates every `GetStatus` error
verbatim instead of converting it into a FAIL verdict. -/
theorem claim_C7_status_reader (dir : StatusDir) (h : String) :
    (dir h = .missing →
      getStatus dir h = .error ("CI status not found for commit " ++ h)) ∧
    (dir h = .malformed →
      getStatus dir h = .error ("failed to parse CI status JSON")) ∧
    (∀ s, dir h = .valid s → getStatus dir h = .ok s) ∧
    (isPassing dir h = .ok true ↔
      ∃ s, dir h = .valid s ∧ s.status = "PASS") ∧
    (∀ e, getStatus dir h = .error e → isPassing dir h = .error e) ∧
    (∀ b, isPassing dir h = .ok b → ∃ s, getStatus dir h = .ok s) := by
  cases hd : dir h <;>
    simp [getStatus, isPassing, hd] <;>
      simp [beq_iff_eq]

def demoDir : StatusDir := fun h =>
  if h = "c0ffee" then .valid ⟨"refs/heads/agent-1/t1", "c0ffee", "PASS", 5, "ok"⟩
  else .missing

theorem claim_C7_status_reader_witness :
    getStatus demoDir "beef" = .error ("CI status not found for commit " ++ "beef") :=
  (claim_C7_status_reader demoDir "beef").1 rfl

-- ## `GitRepo.AddWorktree` (`pkg/gitutils/git.go`)

/-- The error record produced by `internal.NewGitError(op, path, cause)`. -/
structure GitError where
  op : String
  path : String
  msg : String
deriving DecidableEq

/-- The `git worktree add` command variant `AddWorktree` builds: check out
an existing branch, or create the branch from the default branch. -/
inductive WorktreeCmd where
  | checkout : String → WorktreeCmd
  | createFrom : String → String → WorktreeCmd
deriving DecidableEq

/-- State `AddWorktree` interacts with: the paths existing on disk
(`os.Stat` succeeding on them), the branches of the bare repository, and
whether the `MkdirAll` and `git worktree add` invocations succeed. -/
structure GitRepoState where
  fsPaths : List String
  branches : List String
  mkdirOk : Bool
  worktreeCmdOk : Bool
deriving DecidableEq

/-- The helper `GitRepo.getMainBranch`: prefer `main`, fall back to `master`. -/
def getMainBranch (st : GitRepoState) : Except GitError String :=
  if "main" ∈ st.branches then .ok ("main")
  else if "master" ∈ st.branches then .ok ("master")
  else .error ⟨"find-main-branch", "", "neither main nor master branch found"⟩

/-- The operation `GitRepo.AddWorktree worktreePath branchName`: refuse with the
worktree-exists error when anything exists at `worktreePath`; otherwise
create the parent directory, pick the git command depending on whether
`branchName` exists, run it, and return `worktreePath` exactly as it was
passed in (the Go code has no `filepath.Abs` on this path). -/
def addWorktree (st : GitRepoState) (worktreePath branchName : String) :
    Except GitError (String × WorktreeCmd) :=
  if worktreePath ∈ st.fsPaths then
    .error ⟨"add-worktree", worktreePath, "worktree already exists"⟩
  else if st.mkdirOk = false then
    .error ⟨"mkdir", worktreePath, "mkdir failed"⟩
  else if branchName ∈ st.branches then
    if st.worktreeCmdOk then .ok (worktreePath, .checkout branchName)
    else .error ⟨"add-worktree", worktreePath, "git worktree add failed"⟩
  else
    match getMainBranch st with
    | .error e => .error e
    | .ok base =>
      if st.worktreeCmdOk then .ok (worktreePath, .createFrom branchName base)
      else .error ⟨"add-worktree", worktreePath, "git worktree add failed"⟩

/-- Unix `filepath.IsAbs`: the path starts with a slash. -/
def isAbsPath (p : String) : Bool := p.data.head? = some '/' 

def demoGitState : GitRepoState := ⟨[], ["main"], true, true⟩

/-- C6 counterexample: with a fresh path, a new branch and a repository
whose default branch is `main`, `AddWorktree` succeeds but returns the
relative path it was given — not an absolute path, contradicting the
final clause of the claim ("the absolute worktree path is returned"). -/
theorem claim_C6_counterexample :
    addWorktree demoGitState "work/agent-1/t1" "agent-1/t1" =
      .ok ("work/agent-1/t1", .createFrom "agent-1/t1" "main") ∧
    isAbsPath "work/agent-1/t1" = false := by
  constructor
  · rfl
  · decide

/-- C6 amended: `AddWorktree` fails with the worktree-exists error
whenever anything exists at the path (never reusing it); otherwise an
existing branch is checked out and a missing branch is created from the
default branch (`main`, falling back to `master`); the worktree path is
returned exactly as the caller passed it, so it is absolute only when the
given path was. -/
theorem claim_C6_addworktree (st : GitRepoState) (worktreePath branchName : String) :
    (worktreePath ∈ st.fsPaths →
      addWorktree st worktreePath branchName =
        .error ⟨"add-worktree", worktreePath, "worktree already exists"⟩) ∧
    (worktreePath ∉ st.fsPaths → st.mkdirOk = true → branchName ∈ st.branches →
      st.worktreeCmdOk = true →
      addWorktree st worktreePath branchName =
        .ok (worktreePath, .checkout branchName)) ∧
    (worktreePath ∉ st.fsPaths → st.mkdirOk = true → branchName ∉ st.branches →
      "main" ∈ st.branches → st.worktreeCmdOk = true →
      addWorktree st worktreePath branchName =
        .ok (worktreePath, .createFrom branchName "main")) ∧
    (worktreePath ∉ st.fsPaths → st.mkdirOk = true → branchName ∉ st.branches →
      "main" ∉ st.branches → "master" ∈ st.branches → st.worktreeCmdOk = true →
      addWorktree st worktreePath branchName =
        .ok (worktreePath, .createFrom branchName "master")) ∧
    (∀ p c, addWorktree st worktreePath branchName = .ok (p, c) →
      p = worktreePath) := by
  refine ⟨?_, ?_, ?_, ?_, ?_⟩
  · intro h
    simp [addWorktree, h]
  · intro h1 h2 h3 h4
    simp [addWorktree, h1, h2, h3, h4]
  · intro h1 h2 h3 h4 h5
    simp [addWorktree, getMainBranch, h1, h2, h3, h4, h5]
  · intro h1 h2 h3 h4 h5 h6
    simp [addWorktree, getMainBranch, h1, h2, h3, h4, h5, h6]
  · intro p c h
    unfold addWorktree at h
    split at h
    · simp at h
    · split at h
      · simp at h
      · split at h
        · split at h
          · have hin := Except.ok.inj h
            exact (congrArg Prod.fst hin).symm
          · simp at h
        · split at h
          · simp at h
          · split at h
            · have hin := Except.ok.inj h
              exact (congrArg Prod.fst hin).symm
            · simp at h

theorem claim_C6_addworktree_witness :
    addWorktree demoGitState "/abs/work/agent-1/t2" "main" =
      .ok ("/abs/work/agent-1/t2", .checkout "main") :=
  (claim_C6_addworktree demoGitState "/abs/work/agent-1/t2" "main").2.1
    (by decide) rfl (by decide) rfl

-- ## The worker pipeline (`internal/worker/worker.go`)

/-- Outcomes of the external steps `processTicket` drives for one ticket:
worktree creation, code generation + commit + push (`implementFeature`),
commit-hash lookup, CI trigger, CI verdict, worktree removal, and the
`SkipCI` test switch. -/
structure PipelineEnv where
  addWorktreeOk : Bool
  implementOk : Bool
  getCommitOk : Bool
  triggerCIOk : Bool
  ciOk : Bool
  removeOk : Bool
  skipCI : Bool
deriving DecidableEq

/-- The worker fields `processTicket` mutates; the Go zero string stands
for "no worktree tracked". -/
structure WorkerState where
  currentTask : Option Ticket
  worktreePath : String
deriving DecidableEq

/-- The helper `Worker.cleanupWorktree`: call `repo.RemoveWorktree` on the tracked
path (a failure is only logged, leaving the directory behind) and clear
the tracked path unconditionally. -/
def cleanupWorktree (env : PipelineEnv) (s : WorkerState) (fs : List String) :
    WorkerState × List String :=
  if s.worktreePath = "" then (s, fs)
  else ({ s with worktreePath := "" },
    if env.removeOk then fs.erase s.worktreePath else fs)

/-- The helper `Worker.cleanup`: tear down the worktree if one is tracked, then clear
the current ticket. -/
def cleanup (env : PipelineEnv) (s : WorkerState) (fs : List String) :
    WorkerState × List String :=
  let p := if s.worktreePath ≠ "" then cleanupWorktree env s fs else (s, fs)
  ({ p.1 with currentTask := none }, p.2)

/-- The worktree path `<workDir>/agent-<id>/<ticket-id>` that
`processTicket` computes with `filepath.Join`. -/
def worktreePathFor (workDir : String) (workerID : Nat) (t : Ticket) : String :=
  workDir ++ "/agent-" ++ toString workerID ++ "/" ++ t.id

/-- The pipeline `Worker.processTicket`, with the outcome of each external step
resolved by `env` and the set of directories on disk carried explicitly.
The branch structure follows the Go source: clean a stale worktree, create
the worktree (failing if the path exists), run `implementFeature`, then —
unless `skipCI` — look up the commit, trigger CI and wait for the verdict.
Every failure after worktree creation calls `cleanup`; the success paths
only clear `currentTask` and keep the worktree. -/
def processTicket (env : PipelineEnv) (workDir : String) (workerID : Nat)
    (s : WorkerState) (fs : List String) (t : Ticket) :
    WorkerState × List String :=
  let s0 : WorkerState := { s with currentTask := some t }
  let path := worktreePathFor workDir workerID t
  let p1 := if s0.worktreePath ≠ "" then cleanupWorktree env s0 fs else (s0, fs)
  if env.addWorktreeOk = false ∨ path ∈ p1.2 then
    ({ p1.1 with currentTask := none }, p1.2)
  else
    let s2 : WorkerState := { p1.1 with worktreePath := path }
    let fs2 := path :: p1.2
    if env.implementOk = false then cleanup env s2 fs2
    else if env.skipCI = false then
      if env.getCommitOk = false then cleanup env s2 fs2
      else if env.triggerCIOk = false then cleanup env s2 fs2
      else if env.ciOk = false then cleanup env s2 fs2
      else ({ s2 with currentTask := none }, fs2)
    else ({ s2 with currentTask := none }, fs2)

def allOkEnv : PipelineEnv := ⟨true, true, true, true, true, true, false⟩

def idleWorker : WorkerState := ⟨none, ""⟩

/-- C2 counterexample: when every pipeline step succeeds, `processTicket`
reaches its terminal state (`currentTask = nil`) with the worktree still
tracked and its directory still on disk — the success path never calls
`cleanup`, so worktrees are removed only lazily (at the start of the
next ticket of the worker, or at shutdown), refuting "on success as well as on
every failure path the worktree has been torn down". -/
theorem claim_C2_counterexample :
    (processTicket allOkEnv "work" 1 idleWorker [] tkA).1.currentTask = none ∧
    (processTicket allOkEnv "work" 1 idleWorker [] tkA).1.worktreePath =
      "work/agent-1/tk-a" ∧
    "work/agent-1/tk-a" ∈ (processTicket allOkEnv "work" 1 idleWorker [] tkA).2 := by
  refine ⟨rfl, ?_, ?_⟩
  · rfl
  · show "work/agent-1/tk-a" ∈ ["work/agent-1/tk-a"]
    exact List.mem_singleton.mpr rfl

theorem worktreePathFor_ne_empty (workDir : String) (workerID : Nat)
    (t : Ticket) : worktreePathFor workDir workerID t ≠ "" := by
  intro h
  have hlen := congrArg String.length h
  simp [worktreePathFor, String.length_append] at hlen
  exact absurd hlen.1.1.1.2 (by decide)

/-- C2 amended: on every *failure* path following worktree creation the
pipeline tears the worktree down before returning (assuming
`RemoveWorktree` itself succeeds; a removal failure is only logged): the
tracked path is cleared and no directory remains at the worktree path.
On success the worktree is retained at pipeline end and removed only by
the stale-worktree sweep at the next ticket or by shutdown `cleanup`. -/
theorem claim_C2_amended_failure_paths_clean (env : PipelineEnv)
    (workDir : String) (workerID : Nat) (s : WorkerState) (fs : List String)
    (t : Ticket) (hidle : s.worktreePath = "")
    (hfresh : worktreePathFor workDir workerID t ∉ fs)
    (hremove : env.removeOk = true)
    (hfail : env.implementOk = false ∨
      (env.skipCI = false ∧ (env.getCommitOk = false ∨
        env.triggerCIOk = false ∨ env.ciOk = false))) :
    (processTicket env workDir workerID s fs t).1.worktreePath = "" ∧
    worktreePathFor workDir workerID t ∉
      (processTicket env workDir workerID s fs t).2 ∧
    (processTicket env workDir workerID s fs t).1.currentTask = none := by
  have hpne := worktreePathFor_ne_empty workDir workerID t
  obtain ⟨ao, io, gc, tg, ci, rm, sk⟩ := env
  simp only at hremove hfail
  subst hremove
  cases ao <;> cases io <;> cases gc <;> cases tg <;> cases ci <;> cases sk <;>
    simp_all [processTicket, cleanup, cleanupWorktree, hidle, hpne,
      List.erase_cons_head]

theorem claim_C2_amended_failure_paths_clean_witness :
    (processTicket ⟨true, false, true, true, true, true, false⟩ "work" 1
      idleWorker [] tkA).1.worktreePath = "" ∧
    worktreePathFor "work" 1 tkA ∉
      (processTicket ⟨true, false, true, true, true, true, false⟩ "work" 1
        idleWorker [] tkA).2 ∧
    (processTicket ⟨true, false, true, true, true, true, false⟩ "work" 1
      idleWorker [] tkA).1.currentTask = none :=
  claim_C2_amended_failure_paths_clean ⟨true, false, true, true, true, true, false⟩
    "work" 1 idleWorker [] tkA rfl (by simp) rfl (Or.inl rfl)

-- ## Event-bus client `Close` (`internal/ipc/ipc.go`)

/-- The `Client` fields `Close` touches: the `sync.Once` guard, the
cancellable context, the buffered events channel, and the socket
connection (`connPresent = false` when `Connect` was never called).
`connCloseErr` is the error `c.conn.Close()` would report; `panicked`
records whether a Go runtime panic occurred (closing an already-closed
channel panics). -/
structure ClientState where
  onceDone : Bool
  ctxCancelled : Bool
  eventsClosed : Bool
  connPresent : Bool
  connClosed : Bool
  connCloseErr : Option String
  panicked : Bool
deriving DecidableEq

/-- The method `Client.Close`: the body runs inside `closeOnce.Do`, which `sync.Once`
executes exactly once even under concurrent callers (such as the
deferred `Close` of the `readEvents` goroutine racing an explicit one — the
racing calls are serialised, so they are modelled as a sequence).  The
first call cancels the context, closes the events channel and closes the
connection when one exists, returning its error; every later call skips
the body and returns `nil`. -/
def clientClose (s : ClientState) : ClientState × Option String :=
  if s.onceDone then (s, none)
  else
    ({ s with
        onceDone := true
        ctxCancelled := true
        eventsClosed := true
        panicked := s.panicked || s.eventsClosed
        connClosed := s.connClosed || s.connPresent },
      if s.connPresent then s.connCloseErr else none)

/-- The client state right after `NewClient` (and `Connect`, when
`hasConn` is true). -/
def freshClient (hasConn : Bool) (err : Option String) : ClientState :=
  ⟨false, false, false, hasConn, false, err, false⟩

/-- C10: `Client.Close` is idempotent.  Only the first call (from any
caller — `sync.Once` serialises them) cancels the context, closes the
events channel and closes the connection; once `onceDone` holds, `Close`
is a no-op returning `nil`, so any number of further calls leave the
state unchanged, return `nil`, and never double-close the channel (no
panic). -/
theorem claim_C10_close_idempotent (s : ClientState) :
    ((clientClose s).1.onceDone = true) ∧
    (s.onceDone = true → clientClose s = (s, none)) ∧
    (s.onceDone = false →
      (clientClose s).1.ctxCancelled = true ∧
      (clientClose s).1.eventsClosed = true ∧
      (s.connPresent = true → (clientClose s).1.connClosed = true)) ∧
    (clientClose (clientClose s).1 = ((clientClose s).1, none)) ∧
    (∀ n, Nat.iterate (fun st => (clientClose st).1) n (clientClose s).1 =
      (clientClose s).1) ∧
    (s.eventsClosed = false → s.panicked = false →
      ∀ n, (Nat.iterate (fun st => (clientClose st).1) n s).panicked = false) := by
  obtain ⟨od, cc, ec, cp, ccl, ce, pk⟩ := s
  have hnoop : ∀ st : ClientState, st.onceDone = true →
      clientClose st = (st, none) := by
    intro st hst
    simp [clientClose, hst]
  have hfix : ∀ st : ClientState, st.onceDone = true →
      (clientClose st).1 = st := by
    intro st hst
    rw [hnoop st hst]
  have hiter : ∀ (n : Nat) (st : ClientState), st.onceDone = true →
      Nat.iterate (fun u => (clientClose u).1) n st = st := by
    intro n
    induction n with
    | zero =>
      intro st hst
      rfl
    | succ n IH =>
      intro st hst
      rw [Function.iterate_succ_apply, hfix st hst]
      exact IH st hst
  refine ⟨?_, ?_, ?_, ?_, ?_, ?_⟩
  · cases od <;> simp [clientClose]
  · intro h
    simp only at h
    subst h
    simp [clientClose]
  · intro h
    simp only at h
    subst h
    cases cp <;> simp [clientClose]
  · have hdone : (clientClose ⟨od, cc, ec, cp, ccl, ce, pk⟩).1.onceDone = true := by
      cases od <;> simp [clientClose]
    exact hnoop _ hdone
  · intro n
    apply hiter
    cases od <;> simp [clientClose]
  · intro hec hpk n
    simp only at hec hpk
    subst hec
    subst hpk
    cases n with
    | zero => rfl
    | succ n =>
      rw [Function.iterate_succ_apply]
      have hdone2 : (clientClose ⟨od, cc, false, cp, ccl, ce, false⟩).1.onceDone = true := by
        cases od <;> simp [clientClose]
      rw [hiter n _ hdone2]
      cases od <;> simp [clientClose]

theorem claim_C10_close_idempotent_witness :
    clientClose ⟨true, true, true, true, true, none, false⟩ =
      (⟨true, true, true, true, true, none, false⟩, none) :=
  (claim_C10_close_idempotent ⟨true, true, true, true, true, none, false⟩).2.1 rfl
